import Mathlib

/-!
Verification of the rule-based question detector in `AIQuestionDetector.py`
(class `QuestionDetector`).  Text is modelled as `List Char`; the three
methods `is_question`, `extract_questions` and `get_question_type` are
translated line by line.  Python's `str.strip` / `str.split` / `str.lower`
are modelled for the ASCII range (`pyStrip`, `pySplitWS`, `pyLower`); the
five compiled regular expressions of `__init__` are modelled by the five
boolean matchers `pat1` .. `pat5`, each derived from the semantics of the
corresponding pattern string under `re.search` with `re.IGNORECASE`
(no MULTILINE: `^` anchors at the start, `$` matches at the end of the
string or just before a trailing newline, and `.` matches any character
except a newline).
-/

/-- Python `str` whitespace in the ASCII range: the characters stripped by
`str.strip()` and used as separators by `str.split()` and matched by `\s`. -/
def pyIsSpace (c : Char) : Bool :=
  c == ' ' || c == '\t' || c == '\n' || c == '\r' || c == '\x0b' || c == '\x0c'

/-- Python `str.lower` restricted to ASCII: maps A..Z to a..z, fixes the rest. -/
def pyLower (c : Char) : Char :=
  match c with
  | 'A' => 'a' | 'B' => 'b' | 'C' => 'c' | 'D' => 'd' | 'E' => 'e'
  | 'F' => 'f' | 'G' => 'g' | 'H' => 'h' | 'I' => 'i' | 'J' => 'j'
  | 'K' => 'k' | 'L' => 'l' | 'M' => 'm' | 'N' => 'n' | 'O' => 'o'
  | 'P' => 'p' | 'Q' => 'q' | 'R' => 'r' | 'S' => 's' | 'T' => 't'
  | 'U' => 'u' | 'V' => 'v' | 'W' => 'w' | 'X' => 'x' | 'Y' => 'y'
  | 'Z' => 'z'
  | c => c

/-- Lowercase a whole text (`text.lower()`). -/
def lowerL (l : List Char) : List Char := l.map pyLower

/-- View a Lean string literal as the character list it denotes. -/
def strL (s : String) : List Char := s.data

/-- Test whether `l` starts with `p` (`str.startswith`). -/
def startsL : List Char → List Char → Bool
  | _, [] => true
  | [], _ :: _ => false
  | c :: cs, p :: ps => (c == p) && startsL cs ps

/-- Test whether `l` ends with `p` (`str.endswith`). -/
def endsL (l p : List Char) : Bool := startsL l.reverse p.reverse

/-- Membership of a token in a word table (Python `in` on a set of strings). -/
def elemL (x : List Char) (xs : List (List Char)) : Bool := decide (x ∈ xs)

/-- Remove trailing characters satisfying `p`. -/
def dropTail (p : Char → Bool) (l : List Char) : List Char :=
  (l.reverse.dropWhile p).reverse

/-- Python `str.strip()`: remove leading and trailing whitespace. -/
def pyStrip (l : List Char) : List Char :=
  dropTail pyIsSpace (l.dropWhile pyIsSpace)

/-- Python `str.split()` with no argument: split on whitespace runs and
discard empty pieces. -/
def pySplitWS : List Char → List (List Char)
  | [] => []
  | c :: rest =>
    if pyIsSpace c then pySplitWS rest
    else
      match rest with
      | [] => [[c]]
      | d :: _ =>
        if pyIsSpace d then [c] :: pySplitWS rest
        else
          match pySplitWS rest with
          | [] => [[c]]
          | t :: ts => (c :: t) :: ts

/-- Whether the character at offset `n` of `l` exists and is whitespace
(the `\s+` requirement right after an alternation match). -/
def nextIsSpace (l : List Char) (n : Nat) : Bool :=
  match l.drop n with
  | [] => false
  | c :: _ => pyIsSpace c

/-- Whether `w` occurs anywhere in `t` as a contiguous substring. -/
def occursIn (w : List Char) : List Char → Bool
  | [] => startsL [] w
  | c :: rest => startsL (c :: rest) w || occursIn w rest

/-- Whether `w` occurs anywhere in `t` immediately followed by a whitespace
character. -/
def occursWithSpace (w : List Char) : List Char → Bool
  | [] => false
  | c :: rest => (startsL (c :: rest) w && nextIsSpace (c :: rest) w.length)
      || occursWithSpace w rest

/-- The sentence delimiters of `re.split(r'[.!?]+', text)`. -/
def isDelim (c : Char) : Bool := c == '.' || c == '!' || c == '?'

/-- Model of `re.split(r'[.!?]+', text)`: split on maximal nonempty runs of
the delimiters, discarding the delimiters.  Empty pieces appear when the
text starts or ends with a delimiter run, exactly as in Python. -/
def reSplitDelims : List Char → List (List Char)
  | [] => [[]]
  | c :: rest =>
    if isDelim c then
      match rest with
      | [] => [[], []]
      | d :: _ =>
        if isDelim d then reSplitDelims rest
        else [] :: reSplitDelims rest
    else
      match reSplitDelims rest with
      | [] => [[c]]
      | s :: ss => (c :: s) :: ss

/-- Length of the leading whitespace run (how far `\s+` can reach). -/
def wsRunLen : List Char → Nat
  | [] => 0
  | c :: r => if pyIsSpace c then wsRunLen r + 1 else 0

/-- Whether `.*\?*$` matches the whole of `u` (Python semantics, no
MULTILINE): `.` cannot cross a newline and `$` also matches just before one
trailing newline, so the only newline `u` may contain is a final one. -/
def tailMatchQ (u : List Char) : Bool :=
  u.dropLast.all (fun c => !(c == '\n'))

/-- After the alternation of pattern 5 matched, `\s+.*\?*$` must match the
remainder `r`: `\s+` consumes `k` characters of the leading whitespace run
for some `k ≥ 1`, and `.*\?*$` must match the rest. -/
def p5after (r : List Char) : Bool :=
  (List.range (wsRunLen r)).any (fun k => tailMatchQ (r.drop (k + 1)))

/-- The five alternatives of pattern 5, in the order of the source regex. -/
def wh5 : List (List Char) :=
  [strL "what", strL "how", strL "why", strL "when", strL "where"]

/-- Search of pattern 5 over an already lowercased text: try every start
position; at each, try every alternative followed by `\s+.*\?*$`. -/
def p5core : List Char → Bool
  | [] => false
  | c :: rest =>
    (wh5.any fun w =>
      startsL (c :: rest) w && p5after ((c :: rest).drop w.length))
    || p5core rest

/-- The word table `self.question_words` of `__init__` (lines 12-17). -/
def question_words : List (List Char) :=
  [strL "what", strL "when", strL "where", strL "who", strL "whom",
   strL "whose", strL "which", strL "why", strL "how",
   strL "is", strL "are", strL "was", strL "were", strL "do", strL "does",
   strL "did", strL "can", strL "could",
   strL "will", strL "would", strL "should", strL "shall", strL "may",
   strL "might", strL "must",
   strL "am", strL "has", strL "have", strL "had"]

/-- The nine interrogative openers, in the order shared by pattern 2 and by
the loop of `get_question_type` (line 108). -/
def wh9 : List (List Char) :=
  [strL "what", strL "when", strL "where", strL "who", strL "whom",
   strL "whose", strL "which", strL "why", strL "how"]

/-- The twelve auxiliaries of pattern 3 (line 23). -/
def aux12 : List (List Char) :=
  [strL "is", strL "are", strL "was", strL "were", strL "do", strL "does",
   strL "did", strL "can", strL "could", strL "will", strL "would",
   strL "should"]

/-- The command phrases of pattern 4 (line 24). -/
def cmd6 : List (List Char) :=
  [strL "tell me", strL "explain", strL "describe", strL "define",
   strL "calculate", strL "solve"]

/-- Pattern 1, `\?$`: a question mark at the end, or just before one
trailing newline. -/
def pat1 (t : List Char) : Bool :=
  endsL t (strL "?") || endsL t (strL "?\n")

/-- Pattern 2, anchored `^(what|when|where|who|whom|whose|which|why|how)\s+`,
case-insensitive. -/
def pat2 (t : List Char) : Bool :=
  wh9.any fun w => startsL (lowerL t) w && nextIsSpace (lowerL t) w.length

/-- Pattern 3, anchored `^(is|are|was|were|do|does|did|can|could|will|would|should)\s+`,
case-insensitive. -/
def pat3 (t : List Char) : Bool :=
  aux12.any fun w => startsL (lowerL t) w && nextIsSpace (lowerL t) w.length

/-- Pattern 4, anchored `^(tell me|explain|describe|define|calculate|solve)\s+`,
case-insensitive. -/
def pat4 (t : List Char) : Bool :=
  cmd6.any fun w => startsL (lowerL t) w && nextIsSpace (lowerL t) w.length

/-- Pattern 5, unanchored `(what|how|why|when|where)\s+.*\?*$`,
case-insensitive. -/
def pat5 (t : List Char) : Bool := p5core (lowerL t)

/-- The list `self.compiled_patterns` (line 29), in source order. -/
def compiled_patterns : List (List Char → Bool) :=
  [pat1, pat2, pat3, pat4, pat5]

/-- The inline auxiliary set of the inverted-structure check (lines 63-65). -/
def inverted_aux : List (List Char) :=
  [strL "is", strL "are", strL "was", strL "were", strL "do", strL "does",
   strL "did", strL "can", strL "could", strL "will", strL "would",
   strL "should", strL "shall", strL "may", strL "might", strL "must",
   strL "have", strL "has", strL "had"]

/-- Line 56: `text.split()[0].lower()`.  The index is modelled with a
default; the guard of line 41 makes the token list nonempty (claim C9). -/
def first_word (t : List Char) : List Char :=
  lowerL ((pySplitWS t).headD [])

/-- Method `is_question` (lines 31-68).  The sequence of early
`return True` statements is the disjunction of the four checks; the only
`return False` before the final one is the length guard of line 41. -/
def is_question (text : List Char) : Bool :=
  if text.isEmpty || decide ((pyStrip text).length < 3) then false
  else
    endsL (pyStrip text) (strL "?")
    || compiled_patterns.any (fun p => p (pyStrip text))
    || elemL (first_word (pyStrip text)) question_words
    || (decide (2 ≤ (pySplitWS (lowerL (pyStrip text))).length)
        && elemL ((pySplitWS (lowerL (pyStrip text))).headD []) inverted_aux)

/-- The loop body of `extract_questions` (lines 85-91) over the pieces
produced by the split. -/
def extract_questions_aux : List (List Char) → List (List Char)
  | [] => []
  | sent :: rest =>
    if !(pyStrip sent).isEmpty && is_question (pyStrip sent) then
      (if endsL (pyStrip sent) (strL "?") then pyStrip sent
       else pyStrip sent ++ strL "?") :: extract_questions_aux rest
    else extract_questions_aux rest

/-- Method `extract_questions` (lines 70-93). -/
def extract_questions (text : List Char) : List (List Char) :=
  extract_questions_aux (reSplitDelims text)

/-- The yes/no starter set of `get_question_type` (lines 113-115). -/
def yes_no_starters : List (List Char) :=
  [strL "is", strL "are", strL "was", strL "were", strL "do", strL "does",
   strL "did", strL "can", strL "could", strL "will", strL "would",
   strL "should", strL "shall", strL "may", strL "might", strL "must",
   strL "have", strL "has", strL "had"]

/-- Method `get_question_type` (lines 95-128).  The for-loop over the nine
question words with an early return is `List.find?` over `wh9`. -/
def get_question_type (question : List Char) : List Char :=
  match wh9.find? (fun w => startsL (pyStrip (lowerL question)) w) with
  | some w => w
  | none =>
    if elemL ((pySplitWS (pyStrip (lowerL question))).headD []) yes_no_starters then
      strL "yes/no"
    else if [strL "tell me", strL "explain", strL "describe", strL "define"].any
        (fun c => startsL (pyStrip (lowerL question)) c) then
      strL "explanation"
    else if [strL "calculate", strL "solve", strL "compute"].any
        (fun c => startsL (pyStrip (lowerL question)) c) then
      strL "calculation"
    else strL "other"

/-- The fixed category set of `get_question_type`. -/
def question_types : List (List Char) :=
  wh9 ++ [strL "yes/no", strL "explanation", strL "calculation", strL "other"]

/-! ## Helper lemmas -/

lemma dropWhile_head_false (p : Char → Bool) :
    ∀ (l : List Char) (c : Char) (cs : List Char),
      l.dropWhile p = c :: cs → p c = false := by
  intro l
  induction l with
  | nil => intro c cs h; simp [List.dropWhile] at h
  | cons x xs ih =>
    intro c cs h
    rw [List.dropWhile_cons] at h
    by_cases hx : p x = true
    · rw [if_pos hx] at h; exact ih c cs h
    · rw [if_neg hx] at h
      cases h
      exact Bool.not_eq_true _ ▸ (Bool.eq_false_iff.mpr hx)

lemma exists_append_dropWhile (p : Char → Bool) :
    ∀ l : List Char, ∃ t, l = t ++ l.dropWhile p := by
  intro l
  induction l with
  | nil => exact ⟨[], rfl⟩
  | cons x xs ih =>
    rw [List.dropWhile_cons]
    by_cases hx : p x = true
    · obtain ⟨t, ht⟩ := ih
      exact ⟨x :: t, by rw [if_pos hx]; simpa using ht⟩
    · exact ⟨[], by rw [if_neg hx]; simp⟩

lemma pyStrip_pre (l : List Char) :
    ∃ u, l.dropWhile pyIsSpace = pyStrip l ++ u := by
  obtain ⟨t, ht⟩ := exists_append_dropWhile pyIsSpace (l.dropWhile pyIsSpace).reverse
  refine ⟨t.reverse, ?_⟩
  have := congrArg List.reverse ht
  simpa [pyStrip, dropTail] using this

lemma pyStrip_head_not_space (l : List Char) (c : Char) (cs : List Char)
    (h : pyStrip l = c :: cs) : pyIsSpace c = false := by
  obtain ⟨u, hu⟩ := pyStrip_pre l
  rw [h] at hu
  exact dropWhile_head_false pyIsSpace l c (cs ++ u) (by simpa using hu)

lemma splitWS_cons_ne_nil (c : Char) (cs : List Char) (hc : pyIsSpace c = false) :
    pySplitWS (c :: cs) ≠ [] := by
  unfold pySplitWS
  rw [if_neg (by simp [hc])]
  cases cs with
  | nil => simp
  | cons d ds =>
    by_cases hd : pyIsSpace d = true
    · simp [hd]
    · cases h : pySplitWS (d :: ds) with
      | nil => simp [hd, h]
      | cons t ts => simp [hd, h]

lemma pyStrip_nil : pyStrip [] = [] := rfl

lemma qdGuardFalse (s : List Char) (h : 3 ≤ (pyStrip s).length) :
    (s.isEmpty || decide ((pyStrip s).length < 3)) = false := by
  have h1 : s.isEmpty = false := by
    cases s with
    | nil => rw [pyStrip_nil] at h; simp at h
    | cons c cs => rfl
  rw [h1]
  simp
  omega

/-! ## Claim theorems, first batch -/

/-- C1 counterexample: the input "?" ends with a literal "?" after trimming,
yet `is_question` returns false (the length guard of line 41 fires first),
so the claim as stated is false. -/
theorem C1_counterexample :
    endsL (pyStrip (strL "?")) (strL "?") = true ∧ is_question (strL "?") = false := by
  decide

/-- C1 (amended): for every input string whose trimmed form ends with a
literal "?" and has at least 3 characters, `is_question` returns true. -/
theorem C1_amended (s : List Char)
    (h1 : endsL (pyStrip s) (strL "?") = true)
    (h2 : 3 ≤ (pyStrip s).length) :
    is_question s = true := by
  unfold is_question
  rw [qdGuardFalse s h2]
  simp [h1]

/-- C1 witness: the amended claim evaluated at "abc?". -/
theorem C1_witness :
    endsL (pyStrip (strL "abc?")) (strL "?") = true ∧
    3 ≤ (pyStrip (strL "abc?")).length ∧
    is_question (strL "abc?") = true :=
  ⟨by decide, by decide, C1_amended (strL "abc?") (by decide) (by decide)⟩

/-- C2 counterexample: the trimmed form of "a ?" has only 2 non-whitespace
characters, yet `is_question` returns true (the guard of line 41 counts all
characters of the trimmed string, whitespace included), so the claim as
stated is false. -/
theorem C2_counterexample :
    ((pyStrip (strL "a ?")).filter (fun c => !pyIsSpace c)).length < 3 ∧
    is_question (strL "a ?") = true := by
  decide

/-- C2 (amended): for every input string whose trimmed form has fewer than
3 characters in total (whitespace included), `is_question` returns false,
regardless of any other rule. -/
theorem C2_amended (s : List Char) (h : (pyStrip s).length < 3) :
    is_question s = false := by
  unfold is_question
  have hd : decide ((pyStrip s).length < 3) = true := decide_eq_true h
  simp [hd]

/-- C2 witness: the amended claim evaluated at "a ". -/
theorem C2_witness :
    (pyStrip (strL "a ")).length < 3 ∧ is_question (strL "a ") = false :=
  ⟨by decide, C2_amended (strL "a ") (by decide)⟩

/-- C8: every operation is deterministic: two calls on the same input (with
the rule tables `question_words`, `compiled_patterns`, `inverted_aux`,
`yes_no_starters` as constructed at initialization, which are constants of
this development) return identical results; the operations are pure
functions of their argument, so there is no observable side effect on the
detector's state. -/
theorem C8_deterministic (s t : List Char) (h : s = t) :
    is_question s = is_question t ∧
    extract_questions s = extract_questions t ∧
    get_question_type s = get_question_type t := by
  subst h
  exact ⟨rfl, rfl, rfl⟩

/-- C8 witness: determinism evaluated at a concrete repeated call. -/
theorem C8_witness :
    strL "Is it real" = strL "Is it real" ∧
    (is_question (strL "Is it real") = is_question (strL "Is it real") ∧
     extract_questions (strL "Is it real") = extract_questions (strL "Is it real") ∧
     get_question_type (strL "Is it real") = get_question_type (strL "Is it real")) :=
  ⟨rfl, C8_deterministic (strL "Is it real") (strL "Is it real") rfl⟩

/-- C9: when the guard of line 41 has passed (the trimmed text has at least
3 characters), the trimmed text contains a non-whitespace character and its
whitespace split is nonempty, so the unguarded index `text.split()[0]` of
line 56 is always defined. -/
theorem C9_safe_index (s : List Char) (h : 3 ≤ (pyStrip s).length) :
    pySplitWS (pyStrip s) ≠ [] ∧
    (pyStrip s).any (fun c => !pyIsSpace c) = true := by
  cases hs : pyStrip s with
  | nil => rw [hs] at h; simp at h
  | cons c cs =>
    have hc : pyIsSpace c = false := pyStrip_head_not_space s c cs hs
    constructor
    · exact splitWS_cons_ne_nil c cs hc
    · simp [hc]

/-- C9 witness: the safety property evaluated at "abc". -/
theorem C9_witness :
    3 ≤ (pyStrip (strL "abc")).length ∧
    (pySplitWS (pyStrip (strL "abc")) ≠ [] ∧
     (pyStrip (strL "abc")).any (fun c => !pyIsSpace c) = true) :=
  ⟨by decide, C9_safe_index (strL "abc") (by decide)⟩

/-! ## Extraction pipeline (claims C3, C7, C10) -/

/-- Modelled from the spec's description of `extractQuestions` for the
refinement comparison of claim C3: split on maximal delimiter runs, trim
each fragment, drop the empty fragments, keep exactly the fragments
classified as questions, and append "?" to a kept fragment that does not
already end with "?", preserving order. -/
def extract_questions_spec (text : List Char) : List (List Char) :=
  ((((reSplitDelims text).map pyStrip).filter (fun s => !s.isEmpty)).filter
      (fun s => is_question s)).map
    (fun s => if endsL s (strL "?") then s else s ++ strL "?")

lemma aux_eq_pipeline : ∀ L : List (List Char),
    extract_questions_aux L =
      (((L.map pyStrip).filter (fun s => !s.isEmpty)).filter
          (fun s => is_question s)).map
        (fun s => if endsL s (strL "?") then s else s ++ strL "?") := by
  intro L
  induction L with
  | nil => rfl
  | cons sent rest ih =>
    simp only [extract_questions_aux, List.map_cons, List.filter_cons]
    cases h1 : (pyStrip sent).isEmpty with
    | true => simp [h1, ih]
    | false =>
      cases h2 : is_question (pyStrip sent) with
      | true => simp [h1, h2, ih]
      | false => simp [h1, h2, ih]

lemma pyStrip_eq_nil_of_all_space (s : List Char) (h : s.all pyIsSpace = true) :
    pyStrip s = [] := by
  have h1 : s.dropWhile pyIsSpace = [] := by
    induction s with
    | nil => rfl
    | cons c cs ih =>
      simp only [List.all_cons, Bool.and_eq_true] at h
      rw [List.dropWhile_cons, if_pos h.1]
      exact ih h.2
  simp [pyStrip, h1, dropTail]

lemma space_not_delim (c : Char) (h : pyIsSpace c = true) : isDelim c = false := by
  simp only [pyIsSpace, Bool.or_eq_true, beq_iff_eq] at h
  rcases h with ((((h | h) | h) | h) | h) | h <;> subst h <;> decide

lemma reSplit_all_nondelim : ∀ l : List Char,
    (∀ c ∈ l, isDelim c = false) → reSplitDelims l = [l] := by
  intro l
  induction l with
  | nil => intro _; rfl
  | cons c rest ih =>
    intro h
    have hc : isDelim c = false := h c (by simp)
    unfold reSplitDelims
    rw [if_neg (by simp [hc])]
    rw [ih (fun d hd => h d (by simp [hd]))]

lemma reSplit_frag_no_delim : ∀ (l f : List Char),
    f ∈ reSplitDelims l → ∀ c ∈ f, isDelim c = false := by
  intro l
  induction l with
  | nil =>
    intro f hf c hc
    simp only [reSplitDelims, List.mem_singleton] at hf
    subst hf
    simp at hc
  | cons x rest ih =>
    intro f hf c hc
    unfold reSplitDelims at hf
    by_cases hx : isDelim x = true
    · rw [if_pos hx] at hf
      cases rest with
      | nil =>
        have hf' : f = [] := by simpa using hf
        subst hf'
        simp at hc
      | cons d ds =>
        by_cases hd : isDelim d = true
        · have hf' : f ∈ reSplitDelims (d :: ds) := by simpa [hd] using hf
          exact ih f hf' c hc
        · have hf' : f = [] ∨ f ∈ reSplitDelims (d :: ds) := by simpa [hd] using hf
          rcases hf' with h | h
          · subst h; simp at hc
          · exact ih f h c hc
    · rw [if_neg hx] at hf
      cases hr : reSplitDelims rest with
      | nil =>
        rw [hr] at hf
        have hf' : f = [x] := by simpa using hf
        subst hf'
        have hcx : c = x := by simpa using hc
        subst hcx
        exact Bool.eq_false_iff.mpr hx
      | cons s ss =>
        rw [hr] at hf
        have hf' : f = x :: s ∨ f ∈ ss := by simpa using hf
        rcases hf' with h | h
        · subst h
          rcases List.mem_cons.mp hc with h' | h'
          · subst h'; exact Bool.eq_false_iff.mpr hx
          · exact ih s (by rw [hr]; exact List.mem_cons_self s ss) c h'
        · exact ih f (by rw [hr]; exact List.mem_cons_of_mem s h) c hc

lemma mem_of_mem_pyStrip (l : List Char) (c : Char) (h : c ∈ pyStrip l) :
    c ∈ l := by
  obtain ⟨u, hu⟩ := pyStrip_pre l
  obtain ⟨t, ht⟩ := exists_append_dropWhile pyIsSpace l
  rw [ht, hu]
  simp [h]

lemma endsQ_mem (l : List Char) (h : endsL l (strL "?") = true) : '?' ∈ l := by
  unfold endsL at h
  have hq : (strL "?").reverse = ['?'] := rfl
  rw [hq] at h
  cases hr : l.reverse with
  | nil => rw [hr] at h; simp [startsL] at h
  | cons c cs =>
    rw [hr] at h
    simp only [startsL, Bool.and_eq_true, beq_iff_eq] at h
    have : c ∈ l.reverse := by rw [hr]; exact List.mem_cons_self c cs
    rw [h.1] at this
    exact List.mem_reverse.mp this

lemma mem_extract_aux : ∀ (L : List (List Char)) (q : List Char),
    q ∈ extract_questions_aux L →
    ∃ f ∈ L, pyStrip f ≠ [] ∧
      q = (if endsL (pyStrip f) (strL "?") then pyStrip f
           else pyStrip f ++ strL "?") := by
  intro L
  induction L with
  | nil => intro q hq; simp [extract_questions_aux] at hq
  | cons sent rest ih =>
    intro q hq
    unfold extract_questions_aux at hq
    by_cases hc : (!(pyStrip sent).isEmpty && is_question (pyStrip sent)) = true
    · rw [if_pos hc] at hq
      rcases List.mem_cons.mp hq with h | h
      · refine ⟨sent, by simp, ?_, h⟩
        have hc' := hc
        rw [Bool.and_eq_true] at hc'
        intro hn
        rw [hn] at hc'
        simp at hc'
      · obtain ⟨f, hf, h1, h2⟩ := ih q h
        exact ⟨f, by simp [hf], h1, h2⟩
    · rw [if_neg hc] at hq
      obtain ⟨f, hf, h1, h2⟩ := ih q hq
      exact ⟨f, by simp [hf], h1, h2⟩

/-- C3: `extract_questions` splits on maximal runs of '.', '!', '?'
(delimiters discarded), trims each fragment, drops empty fragments, keeps
exactly the fragments classified by `is_question`, appends "?" to a kept
fragment not already ending in "?", preserving order; and the spec's
worked example evaluates as stated. -/
theorem C3_extract :
    (∀ t : List Char, extract_questions t = extract_questions_spec t) ∧
    extract_questions (strL "The sun is hot. What is its temperature. Tell me more.") =
      [strL "What is its temperature?", strL "Tell me more?"] := by
  constructor
  · intro t
    unfold extract_questions extract_questions_spec
    exact aux_eq_pipeline (reSplitDelims t)
  · decide

/-- C7: the operations are total functions of the input text: for every
whitespace-only input (the empty string included) `is_question` returns
false and `extract_questions` returns the empty sequence, and
`get_question_type` always returns a member of the fixed category set, in
particular "other" for the empty string. -/
theorem C7_total :
    (∀ s : List Char, s.all pyIsSpace = true →
       is_question s = false ∧ extract_questions s = []) ∧
    (∀ q : List Char, get_question_type q ∈ question_types) ∧
    get_question_type [] = strL "other" := by
  refine ⟨?_, ?_, by decide⟩
  · intro s h
    have hstrip : pyStrip s = [] := pyStrip_eq_nil_of_all_space s h
    constructor
    · unfold is_question
      rw [if_pos]
      rw [hstrip]
      simp
    · have hnod : ∀ c ∈ s, isDelim c = false := by
        intro c hc
        exact space_not_delim c ((List.all_eq_true.mp h) c hc)
      unfold extract_questions
      rw [reSplit_all_nondelim s hnod]
      simp [extract_questions_aux, hstrip]
  · intro q
    unfold get_question_type
    cases hf : wh9.find? (fun w => startsL (pyStrip (lowerL q)) w) with
    | some w => exact List.mem_append_left _ (List.mem_of_find?_eq_some hf)
    | none =>
      show (if elemL ((pySplitWS (pyStrip (lowerL q))).headD []) yes_no_starters then
              strL "yes/no"
            else if [strL "tell me", strL "explain", strL "describe", strL "define"].any
                (fun c => startsL (pyStrip (lowerL q)) c) then
              strL "explanation"
            else if [strL "calculate", strL "solve", strL "compute"].any
                (fun c => startsL (pyStrip (lowerL q)) c) then
              strL "calculation"
            else strL "other") ∈ question_types
      split
      · decide
      · split
        · decide
        · split
          · decide
          · decide

/-- C7 witness: the boundary and totality facts evaluated at concrete
inputs (a whitespace-only string and an arbitrary word). -/
theorem C7_witness :
    (strL " \t ").all pyIsSpace = true ∧
    (is_question (strL " \t ") = false ∧ extract_questions (strL " \t ") = []) ∧
    get_question_type (strL "zzz") ∈ question_types :=
  ⟨by decide, C7_total.1 (strL " \t ") (by decide), C7_total.2.1 (strL "zzz")⟩

/-- C10: every element of the sequence returned by `extract_questions` ends
with '?', contains exactly one '?' (the final one), and contains no '.' and
no '!': the split removes every delimiter character, so the appended
question mark is the only delimiter in an output element. -/
theorem C10_shape (s q : List Char) (h : q ∈ extract_questions s) :
    q.getLast? = some '?' ∧ q.count '?' = 1 ∧ q.count '.' = 0 ∧ q.count '!' = 0 := by
  obtain ⟨f, hf, hne, hq⟩ := mem_extract_aux (reSplitDelims s) q h
  have hnod : ∀ c ∈ pyStrip f, isDelim c = false := fun c hc =>
    reSplit_frag_no_delim s f hf c (mem_of_mem_pyStrip f c hc)
  have hnq : '?' ∉ pyStrip f := by
    intro hmem
    have := hnod '?' hmem
    simp [isDelim] at this
  have hnd : '.' ∉ pyStrip f := by
    intro hmem
    have := hnod '.' hmem
    simp [isDelim] at this
  have hnb : '!' ∉ pyStrip f := by
    intro hmem
    have := hnod '!' hmem
    simp [isDelim] at this
  have hend : endsL (pyStrip f) (strL "?") = false := by
    cases he : endsL (pyStrip f) (strL "?") with
    | true => exact absurd (endsQ_mem _ he) hnq
    | false => rfl
  rw [hend] at hq
  simp only [Bool.false_eq_true, if_false] at hq
  subst hq
  have hsq : strL "?" = ['?'] := rfl
  refine ⟨?_, ?_, ?_, ?_⟩
  · rw [hsq, List.getLast?_concat]
  · rw [hsq, List.count_append, List.count_eq_zero.mpr hnq]
    decide
  · rw [hsq, List.count_append, List.count_eq_zero.mpr hnd]
    decide
  · rw [hsq, List.count_append, List.count_eq_zero.mpr hnb]
    decide

/-- C10 witness: the output-shape property evaluated at a concrete call. -/
theorem C10_witness :
    strL "What is it?" ∈ extract_questions (strL "What is it.") ∧
    ((strL "What is it?").getLast? = some '?' ∧
     (strL "What is it?").count '?' = 1 ∧
     (strL "What is it?").count '.' = 0 ∧
     (strL "What is it?").count '!' = 0) :=
  ⟨by decide, C10_shape (strL "What is it.") (strL "What is it?") (by decide)⟩

/-! ## Question type (claim C4) -/

/-- C4: when the lowercased, trimmed input starts with one of the nine
question words — tested in the fixed source order of `wh9`, first match
winning — `get_question_type` returns that first matching word; this check
precedes the yes/no auxiliary check. -/
theorem C4_type (q : List Char)
    (h : ∃ w ∈ wh9, startsL (pyStrip (lowerL q)) w = true) :
    ∃ w, wh9.find? (fun w => startsL (pyStrip (lowerL q)) w) = some w ∧
      get_question_type q = w ∧ w ∈ wh9 ∧
      startsL (pyStrip (lowerL q)) w = true := by
  obtain ⟨w0, hm, hs⟩ := h
  have hsome : (wh9.find? (fun w => startsL (pyStrip (lowerL q)) w)).isSome = true := by
    rw [List.find?_isSome]
    exact ⟨w0, hm, hs⟩
  obtain ⟨w, hw⟩ := Option.isSome_iff_exists.mp hsome
  refine ⟨w, hw, ?_, List.mem_of_find?_eq_some hw, List.find?_some hw⟩
  unfold get_question_type
  rw [hw]

/-- C4 witness: evaluated at "How should I invest", where "how" wins over
the yes/no auxiliary "should". -/
theorem C4_witness :
    (∃ w ∈ wh9, startsL (pyStrip (lowerL (strL "How should I invest"))) w = true) ∧
    (∃ w, wh9.find? (fun w => startsL (pyStrip (lowerL (strL "How should I invest"))) w)
        = some w ∧
      get_question_type (strL "How should I invest") = w ∧ w ∈ wh9 ∧
      startsL (pyStrip (lowerL (strL "How should I invest"))) w = true) :=
  ⟨⟨strL "how", by decide, by decide⟩,
   C4_type (strL "How should I invest") ⟨strL "how", by decide, by decide⟩⟩

/-! ## Pattern 5 (claim C5) -/

lemma all_sub {p : Char → Bool} {l l' : List Char} (hs : l' ⊆ l)
    (h : l.all p = true) : l'.all p = true := by
  rw [List.all_eq_true] at h ⊢
  exact fun x hx => h x (hs hx)

lemma p5after_of (r : List Char) (c0 : Char) (r' : List Char)
    (hr : r = c0 :: r') (hc : pyIsSpace c0 = true)
    (hnn : r'.all (fun c => !(c == '\n')) = true) : p5after r = true := by
  subst hr
  unfold p5after
  have h1 : 1 ≤ wsRunLen (c0 :: r') := by
    unfold wsRunLen
    rw [if_pos hc]
    omega
  rw [List.any_eq_true]
  refine ⟨0, List.mem_range.mpr (by omega), ?_⟩
  show tailMatchQ r' = true
  unfold tailMatchQ
  exact all_sub (fun x hx => (List.dropLast_sublist r').subset hx) hnn

lemma p5core_of : ∀ (u w : List Char), w ∈ wh5 →
    u.all (fun c => !(c == '\n')) = true →
    occursWithSpace w u = true → p5core u = true := by
  intro u
  induction u with
  | nil => intro w _ _ ho; simp [occursWithSpace] at ho
  | cons c rest ih =>
    intro w hw hnn ho
    unfold occursWithSpace at ho
    rw [Bool.or_eq_true] at ho
    unfold p5core
    rw [Bool.or_eq_true]
    rcases ho with h | h
    · left
      rw [List.any_eq_true]
      refine ⟨w, hw, ?_⟩
      rw [Bool.and_eq_true] at h
      obtain ⟨hpre, hsp⟩ := h
      rw [Bool.and_eq_true]
      refine ⟨hpre, ?_⟩
      unfold nextIsSpace at hsp
      cases hd : (c :: rest).drop w.length with
      | nil => rw [hd] at hsp; simp at hsp
      | cons c0 r' =>
        rw [hd] at hsp
        have hsp' : pyIsSpace c0 = true := hsp
        apply p5after_of (c0 :: r') c0 r' rfl hsp'
        apply all_sub _ hnn
        intro x hx
        have hx' : x ∈ (c :: rest).drop w.length := by
          rw [hd]
          exact List.mem_cons_of_mem c0 hx
        exact List.drop_subset _ _ hx'
    · right
      apply ih w hw _ h
      rw [List.all_cons, Bool.and_eq_true] at hnn
      exact hnn.2

/-- C5 counterexample: "see whatnot" has at least 3 non-whitespace
characters and contains "what" followed by characters ("not") with no
trailing "?", yet `is_question` returns false — pattern 5 demands at least
one whitespace character right after the question word (`\s+`), so the
claim as stated is false. -/
theorem C5_counterexample :
    3 ≤ ((pyStrip (strL "see whatnot")).filter (fun c => !pyIsSpace c)).length ∧
    occursIn (strL "what") (lowerL (pyStrip (strL "see whatnot"))) = true ∧
    is_question (strL "see whatnot") = false := by
  decide

/-- C5 (amended): for every input whose trimmed form has at least 3
non-whitespace characters, whose lowercased trimmed form contains no
newline character, and which contains (case-insensitively) one of what,
how, why, when, where followed immediately by a whitespace character,
`is_question` returns true via pattern 5. -/
theorem C5_amended (s : List Char)
    (h1 : 3 ≤ ((pyStrip s).filter (fun c => !pyIsSpace c)).length)
    (h2 : (lowerL (pyStrip s)).all (fun c => !(c == '\n')) = true)
    (h3 : ∃ w ∈ wh5, occursWithSpace w (lowerL (pyStrip s)) = true) :
    is_question s = true := by
  have hlen : 3 ≤ (pyStrip s).length :=
    le_trans h1 (List.length_filter_le _ _)
  unfold is_question
  rw [qdGuardFalse s hlen]
  obtain ⟨w, hw, ho⟩ := h3
  have hp5 : pat5 (pyStrip s) = true := p5core_of (lowerL (pyStrip s)) w hw h2 ho
  have hany : compiled_patterns.any (fun p => p (pyStrip s)) = true := by
    rw [List.any_eq_true]
    exact ⟨pat5, by simp [compiled_patterns], hp5⟩
  simp [hany]

/-- C5 witness: the amended claim evaluated at "and what now". -/
theorem C5_witness :
    3 ≤ ((pyStrip (strL "and what now")).filter (fun c => !pyIsSpace c)).length ∧
    (lowerL (pyStrip (strL "and what now"))).all (fun c => !(c == '\n')) = true ∧
    (∃ w ∈ wh5, occursWithSpace w (lowerL (pyStrip (strL "and what now"))) = true) ∧
    is_question (strL "and what now") = true :=
  ⟨by decide, by decide, ⟨strL "what", by decide, by decide⟩,
   C5_amended (strL "and what now") (by decide) (by decide)
     ⟨strL "what", by decide, by decide⟩⟩

/-! ## Inverted auxiliary structure (claim C6) -/

/-- Sum of the token lengths of a whitespace split. -/
def tokensLen (L : List (List Char)) : Nat := (L.map List.length).sum

/-- Slack term of the split length bound: 1 unless the text starts with
whitespace. -/
def headBonus : List Char → Nat
  | [] => 1
  | c :: _ => if pyIsSpace c then 0 else 1

lemma headBonus_le_one : ∀ l : List Char, headBonus l ≤ 1 := by
  intro l
  cases l with
  | nil => simp [headBonus]
  | cons c cs =>
    simp only [headBonus]
    split <;> omega

lemma pySplitWS_sp (c : Char) (cs : List Char) (hc : pyIsSpace c = true) :
    pySplitWS (c :: cs) = pySplitWS cs := by
  conv_lhs => unfold pySplitWS
  rw [if_pos hc]

lemma pySplitWS_one (c : Char) (hc : pyIsSpace c = false) :
    pySplitWS [c] = [[c]] := by
  conv_lhs => unfold pySplitWS
  rw [if_neg (by simp [hc])]

lemma pySplitWS_two_sp (c d : Char) (ds : List Char) (hc : pyIsSpace c = false)
    (hd : pyIsSpace d = true) :
    pySplitWS (c :: d :: ds) = [c] :: pySplitWS (d :: ds) := by
  conv_lhs => unfold pySplitWS
  rw [if_neg (by simp [hc])]
  show (if pyIsSpace d = true then [c] :: pySplitWS (d :: ds)
        else match pySplitWS (d :: ds) with
          | [] => [[c]]
          | t :: ts => (c :: t) :: ts) = [c] :: pySplitWS (d :: ds)
  rw [if_pos hd]

lemma pySplitWS_two_ns (c d : Char) (ds : List Char) (hc : pyIsSpace c = false)
    (hd : pyIsSpace d = false) :
    pySplitWS (c :: d :: ds) =
      (match pySplitWS (d :: ds) with
       | [] => [[c]]
       | t :: ts => (c :: t) :: ts) := by
  conv_lhs => unfold pySplitWS
  rw [if_neg (by simp [hc])]
  show (if pyIsSpace d = true then [c] :: pySplitWS (d :: ds)
        else match pySplitWS (d :: ds) with
          | [] => [[c]]
          | t :: ts => (c :: t) :: ts) = _
  rw [if_neg (by simp [hd])]

lemma splitWS_tokens_ne_nil : ∀ l : List Char, ∀ t ∈ pySplitWS l, t ≠ [] := by
  intro l
  induction l with
  | nil => intro t ht; simp [pySplitWS] at ht
  | cons c cs ih =>
    intro t ht
    by_cases hc : pyIsSpace c = true
    · rw [pySplitWS_sp c cs hc] at ht
      exact ih t ht
    · have hc' : pyIsSpace c = false := Bool.eq_false_iff.mpr hc
      cases cs with
      | nil =>
        rw [pySplitWS_one c hc'] at ht
        have : t = [c] := by simpa using ht
        subst this
        simp
      | cons d ds =>
        by_cases hd : pyIsSpace d = true
        · rw [pySplitWS_two_sp c d ds hc' hd] at ht
          rcases List.mem_cons.mp ht with h | h
          · subst h; simp
          · exact ih t h
        · have hd' : pyIsSpace d = false := Bool.eq_false_iff.mpr hd
          rw [pySplitWS_two_ns c d ds hc' hd'] at ht
          cases hr : pySplitWS (d :: ds) with
          | nil =>
            rw [hr] at ht
            have : t = [c] := by simpa using ht
            subst this
            simp
          | cons s ss =>
            rw [hr] at ht
            have ht' : t = c :: s ∨ t ∈ ss := by simpa using ht
            rcases ht' with h | h
            · subst h; simp
            · exact ih t (by rw [hr]; exact List.mem_cons_of_mem s h)

lemma splitWS_bound : ∀ l : List Char,
    tokensLen (pySplitWS l) + (pySplitWS l).length ≤ l.length + headBonus l := by
  intro l
  induction l with
  | nil => simp [pySplitWS, tokensLen, headBonus]
  | cons c cs ih =>
    have hb1 : headBonus cs ≤ 1 := headBonus_le_one cs
    by_cases hc : pyIsSpace c = true
    · rw [pySplitWS_sp c cs hc]
      have hb : headBonus (c :: cs) = 0 := by simp [headBonus, hc]
      rw [hb]
      simp only [List.length_cons]
      omega
    · have hc' : pyIsSpace c = false := Bool.eq_false_iff.mpr hc
      have hb : headBonus (c :: cs) = 1 := by simp [headBonus, hc]
      rw [hb]
      cases cs with
      | nil =>
        rw [pySplitWS_one c hc']
        simp [tokensLen]
      | cons d ds =>
        by_cases hd : pyIsSpace d = true
        · rw [pySplitWS_two_sp c d ds hc' hd]
          have hb2 : headBonus (d :: ds) = 0 := by simp [headBonus, hd]
          rw [hb2] at ih
          simp only [tokensLen, List.map_cons, List.sum_cons, List.length_cons,
            List.length_nil] at ih ⊢
          omega
        · have hd' : pyIsSpace d = false := Bool.eq_false_iff.mpr hd
          rw [pySplitWS_two_ns c d ds hc' hd']
          have hb2 : headBonus (d :: ds) = 1 := by simp [headBonus, hd]
          rw [hb2] at ih
          cases hr : pySplitWS (d :: ds) with
          | nil =>
            show tokensLen [[c]] + ([[c]] : List (List Char)).length ≤
              (c :: d :: ds).length + 1
            simp [tokensLen]
          | cons s ss =>
            rw [hr] at ih
            show tokensLen ((c :: s) :: ss) + ((c :: s) :: ss).length ≤
              (c :: d :: ds).length + 1
            simp only [tokensLen, List.map_cons, List.sum_cons, List.length_cons,
              List.length_nil] at ih ⊢
            omega

/-- C6: every input whose trimmed text splits into two or more
whitespace-delimited tokens with a first token (lowercased) in the
auxiliary/modal set of lines 63-65 is classified as a question. -/
theorem C6_inverted (s : List Char)
    (h1 : 2 ≤ (pySplitWS (lowerL (pyStrip s))).length)
    (h2 : elemL ((pySplitWS (lowerL (pyStrip s))).headD []) inverted_aux = true) :
    is_question s = true := by
  have hw := splitWS_tokens_ne_nil (lowerL (pyStrip s))
  cases hL : pySplitWS (lowerL (pyStrip s)) with
  | nil => rw [hL] at h1; simp at h1
  | cons t1 L2 =>
    cases L2 with
    | nil => rw [hL] at h1; simp at h1
    | cons t2 L3 =>
      have hb := splitWS_bound (lowerL (pyStrip s))
      rw [hL] at hb
      have ht1 : t1 ≠ [] := hw t1 (by rw [hL]; simp)
      have ht2 : t2 ≠ [] := hw t2 (by rw [hL]; simp)
      have hlen1 : 1 ≤ t1.length := List.length_pos.mpr ht1
      have hlen2 : 1 ≤ t2.length := List.length_pos.mpr ht2
      have hBonus : headBonus (lowerL (pyStrip s)) ≤ 1 :=
        headBonus_le_one (lowerL (pyStrip s))
      have hll : (lowerL (pyStrip s)).length = (pyStrip s).length :=
        List.length_map _ _
      have h3 : 3 ≤ (pyStrip s).length := by
        simp only [tokensLen, List.map_cons, List.sum_cons, List.length_cons] at hb
        omega
      unfold is_question
      rw [qdGuardFalse s h3]
      rw [hL] at h1 h2
      have hd2 : decide (2 ≤ (t1 :: t2 :: L3).length) = true := decide_eq_true h1
      simp only [List.headD_cons] at h2
      simp [hL, hd2, h2]

/-- C6 witness: the inverted-structure rule evaluated at "Has anyone
called". -/
theorem C6_witness :
    2 ≤ (pySplitWS (lowerL (pyStrip (strL "Has anyone called")))).length ∧
    elemL ((pySplitWS (lowerL (pyStrip (strL "Has anyone called")))).headD [])
      inverted_aux = true ∧
    is_question (strL "Has anyone called") = true :=
  ⟨by decide, by decide, C6_inverted (strL "Has anyone called") (by decide) (by decide)⟩

/-- Regression facts of section 8 of the spec, checked by evaluation. -/
theorem spec_section8_examples :
    is_question (strL "What time is it") = true ∧
    is_question (strL "The sky is blue") = false ∧
    is_question (strL "Is the sky blue") = true ∧
    get_question_type (strL "How does photosynthesis work?") = strL "how" ∧
    get_question_type (strL "Is water wet?") = strL "yes/no" ∧
    get_question_type (strL "Tell me about gravity") = strL "explanation" ∧
    get_question_type (strL "Calculate the area of a circle") = strL "calculation" := by
  decide
